import Mathlib

/-!
Verification of the docstring parsing routine found in
`src/mcp/server/fastmcp/utilities/docstring_parser.py`.

Strings are modelled as lists of characters (`Line`).  The Python
whitespace and word-character classes are modelled over their ASCII core
plus the common extra code points Python treats as whitespace or line
breaks; the docstrings this routine is applied to are ASCII text.
Dictionaries are modelled as insertion-ordered association lists with the
update-in-place semantics of a Python `dict`.
-/

namespace DocstringParser

abbrev Line := List Char

abbrev Dict := List (Line × Line)

/-- Characters removed by `str.strip` and matched by the regex class `\x5cs`. -/
def pyIsSpace (c : Char) : Bool :=
  c = ' ' || c = '\t' || c = '\n' || c = '\r' || c = '\x0b' || c = '\x0c' ||
  c = '\x1c' || c = '\x1d' || c = '\x1e' || c = '\x85' || c = '\xa0' ||
  c = '\u2028' || c = '\u2029'

/-- Model of `str.strip`: remove leading and trailing whitespace. -/
def pyStripList (s : Line) : Line :=
  ((s.dropWhile pyIsSpace).reverse.dropWhile pyIsSpace).reverse

/-- Line-break characters recognized by `str.splitlines`. -/
def isLineBreak (c : Char) : Bool :=
  c = '\n' || c = '\r' || c = '\x0b' || c = '\x0c' ||
  c = '\x1c' || c = '\x1d' || c = '\x1e' || c = '\x85' ||
  c = '\u2028' || c = '\u2029'

/-- Worker for `str.splitlines`; `acc` holds the current line, reversed.
A trailing line terminator does not produce a final empty line. -/
def splitlinesGo (acc : Line) : Line → List Line
  | [] => if acc = [] then [] else [acc.reverse]
  | '\r' :: '\n' :: rest => acc.reverse :: splitlinesGo [] rest
  | c :: rest =>
    if isLineBreak c then acc.reverse :: splitlinesGo [] rest
    else splitlinesGo (c :: acc) rest

/-- Model of `str.splitlines`. -/
def pySplitlines (s : Line) : List Line := splitlinesGo [] s

/-- Model of `str.lower` (ASCII). -/
def lowerLine (l : Line) : Line := l.map Char.toLower

/-- Boolean test that `p` occurs at the start of `s` (`str.startswith`). -/
def startsWithSeq : Line → Line → Bool
  | [], _ => true
  | _ :: _, [] => false
  | a :: p, b :: s => if a = b then startsWithSeq p s else false

/-- Section names used in the `current_section` variable of the source. -/
inductive Sec where
  | args | returns | raises | other
deriving DecidableEq, Repr

/-- Parser state: the dictionaries under construction plus the loop
variables of `parse_docstring`. -/
structure St where
  args : Dict
  returns : Line
  raises : Dict
  current_section : Option Sec
  current_key : Option Line
  current_desc_lines : List Line
deriving DecidableEq, Repr

/-- Python truthiness of the `current_key` variable (`None` and the empty
string are falsy). -/
def truthy : Option Line → Bool
  | none => false
  | some l => !l.isEmpty

/-- Test for `line.startswith(' ')` (a single literal space). -/
def startsWithSpace : Line → Bool
  | ' ' :: _ => true
  | _ => false

/-- Model of `" ".join(ls)`. -/
def joinSpace : List Line → Line
  | [] => []
  | [l] => l
  | l :: ls => l ++ ' ' :: joinSpace ls

/-- Lookup `d[k]` in an ordered dictionary. -/
def dlookup : Dict → Line → Option Line
  | [], _ => none
  | (k, v) :: d, key => if k = key then some v else dlookup d key

/-- Assignment `d[k] = v` on an ordered dictionary: replace the value in
place when the key is present, otherwise append the new pair. -/
def dset (d : Dict) (k v : Line) : Dict :=
  if (dlookup d k).isSome then
    d.map fun p => if p.1 = k then (k, v) else p
  else d ++ [(k, v)]

/-- Word-and-dot characters of the regex class `[\x5cw\x5c.]`. -/
def isKeyChar (c : Char) : Bool := c.isAlphanum || c = '_' || c = '.'

/-- Scan the reversed remainder of a line for the last close-paren that is
immediately followed by a colon; return the characters after that colon
(in original order).  This realizes the greedy backtracking of the
`(?:\x5c(.*\x5c))?:` fragment of `key_pattern`. -/
def findCloseColon (acc : Line) : Line → Option Line
  | ':' :: ')' :: _ => some acc
  | c :: rest => findCloseColon (c :: acc) rest
  | [] => none

/-- Model of `key_pattern.match(line)` for the anchored regex
`\x5cs*([\x5cw\x5c.]+)\x5cs*(?:\x5c(.*\x5c))?:\x5cs*(.*)`: returns the two
captured groups (the key, and the text after the colon with leading
whitespace removed).  The regex engine's backtracking is deterministic
here: the key run and the whitespace runs are maximal, and the optional
parenthesized group, when it starts, must end at a close-paren directly
followed by a colon (the greedy `.*` choosing the last such close-paren). -/
def keyMatch (line : Line) : Option (Line × Line) :=
  let s1 := line.dropWhile pyIsSpace
  let key := s1.takeWhile isKeyChar
  if key = [] then none
  else
    match (s1.dropWhile isKeyChar).dropWhile pyIsSpace with
    | ':' :: rest => some (key, rest.dropWhile pyIsSpace)
    | '(' :: inner =>
      match findCloseColon [] inner.reverse with
      | some after => some (key, after.dropWhile pyIsSpace)
      | none => none
    | _ => none

/-- Section-header detection of the source's section-detection block,
performed on the lowercased stripped line: exact comparisons for the
Args and Returns headers, startswith comparisons for Raises and Other. -/
def headerOf (stripped_line : Line) : Option Sec :=
  let s := lowerLine stripped_line
  if s = ( "args:" ).data ∨ s = ( "arguments:" ).data ∨ s = ( "parameters:" ).data then
    some Sec.args
  else if s = ( "returns:" ).data ∨ s = ( "yields:" ).data then
    some Sec.returns
  else if startsWithSeq ( "raises " ).data s = true ∨
      startsWithSeq ( "raises:" ).data s = true ∨
      startsWithSeq ( "errors:" ).data s = true ∨
      startsWithSeq ( "exceptions:" ).data s = true then
    some Sec.raises
  else if startsWithSeq ( "attributes:" ).data s = true ∨
      startsWithSeq ( "see also:" ).data s = true ∨
      startsWithSeq ( "example:" ).data s = true ∨
      startsWithSeq ( "examples:" ).data s = true ∨
      startsWithSeq ( "notes:" ).data s = true then
    some Sec.other
  else none

/-- Commit the pending item: the body of the `if finalize_previous:` block
of the source (before the state reset that follows it). -/
def flushInto (st : St) : St :=
  if st.current_section = some Sec.args ∧ truthy st.current_key = true then
    { st with args := (dset st.args (st.current_key.getD [])
        (pyStripList (joinSpace st.current_desc_lines))) }
  else if st.current_section = some Sec.raises ∧ truthy st.current_key = true then
    { st with raises := (dset st.raises (st.current_key.getD [])
        (pyStripList (joinSpace st.current_desc_lines))) }
  else if st.current_section = some Sec.returns then
    { st with returns := pyStripList (joinSpace st.current_desc_lines) }
  else st

/-- State reset and flush of the `if finalize_previous:` block, including
the computation of the `finalize_previous` flag itself. -/
def finalizeStep (st : St) (line : Line) (new_section_type : Option Sec) : St :=
  if new_section_type.isSome = true ∨
     ((st.current_section = some Sec.args ∨ st.current_section = some Sec.raises) ∧
       truthy st.current_key = true ∧ startsWithSpace line = false) ∨
     (st.current_section = some Sec.returns ∧ st.current_desc_lines ≠ [] ∧
       startsWithSpace line = false) then
    { flushInto st with current_key := none, current_desc_lines := [],
                        current_section := new_section_type }
  else st

/-- Flush of the previous key within the same section, performed by the
source when a new key line is matched while a key is already open. -/
def sameSectionFlush (st1 : St) : St :=
  if truthy st1.current_key = true then
    if st1.current_section = some Sec.args then
      { st1 with args := (dset st1.args (st1.current_key.getD [])
          (pyStripList (joinSpace st1.current_desc_lines))) }
    else if st1.current_section = some Sec.raises then
      { st1 with raises := (dset st1.raises (st1.current_key.getD [])
          (pyStripList (joinSpace st1.current_desc_lines))) }
    else st1
  else st1

/-- Line-content processing: the section-dependent part of the loop body
after header handling (`Process Line Content` in the source). -/
def sectionContent (st1 : St) (line stripped_line : Line) : St :=
  if st1.current_section = some Sec.args ∨ st1.current_section = some Sec.raises then
    match keyMatch line with
    | some (k, g2) =>
      { sameSectionFlush st1 with
        current_key := some k, current_desc_lines := [pyStripList g2] }
    | none =>
      if truthy st1.current_key = true ∧ startsWithSpace line = true then
        { st1 with current_desc_lines := st1.current_desc_lines ++ [stripped_line] }
      else st1
  else if st1.current_section = some Sec.returns then
    if st1.current_desc_lines = [] ∨ startsWithSpace line = true then
      { st1 with current_desc_lines := st1.current_desc_lines ++ [stripped_line] }
    else st1
  else st1

/-- One iteration of the source's `for line in lines[1:]` loop. -/
def processLine (st : St) (line : Line) : St :=
  let stripped_line := pyStripList line
  if stripped_line = [] then st
  else
    let new_section_type := headerOf stripped_line
    let st1 := finalizeStep st line new_section_type
    if new_section_type.isSome = true then st1
    else sectionContent st1 line stripped_line

/-- Final capture after the loop of the source. -/
def finalCapture (st : St) : St :=
  if truthy st.current_key = true then
    if st.current_section = some Sec.args then
      { st with args := (dset st.args (st.current_key.getD [])
          (pyStripList (joinSpace st.current_desc_lines))) }
    else if st.current_section = some Sec.raises then
      { st with raises := (dset st.raises (st.current_key.getD [])
          (pyStripList (joinSpace st.current_desc_lines))) }
    else st
  else if st.current_section = some Sec.returns ∧ st.returns = [] then
    { st with returns := pyStripList (joinSpace st.current_desc_lines) }
  else st

/-- Result record of `parse_docstring`. -/
structure ParsedDoc where
  summary : Line
  args : Dict
  returns : Line
  raises : Dict
deriving DecidableEq, Repr

/-- The empty result record. -/
def emptyDoc : ParsedDoc := ⟨[], [], [], []⟩

/-- Initial loop state of `parse_docstring`. -/
def initSt : St := ⟨[], [], [], none, none, []⟩

/-- Parse starting from the already-split lines; `lines[0]` becomes the
summary, the remaining lines are scanned by the loop. -/
def parseFromLines : List Line → ParsedDoc
  | [] => emptyDoc
  | first :: rest =>
    let final := finalCapture (List.foldl processLine initSt rest)
    ⟨pyStripList first, final.args, final.returns, final.raises⟩

/-- Model of `parse_docstring`: the full routine, over an optional string. -/
def parse_docstring (docstring : Option String) : ParsedDoc :=
  match docstring with
  | none => emptyDoc
  | some s =>
    if s.data = [] then emptyDoc
    else parseFromLines (pySplitlines (pyStripList s.data))



/-! Helper lemmas about the string primitives. -/

theorem pyStripList_eq_rdropWhile (s : Line) :
    pyStripList s = List.rdropWhile pyIsSpace (s.dropWhile pyIsSpace) := rfl

theorem pyStrip_eq_nil_iff {s : Line} :
    pyStripList s = [] ↔ ∀ c ∈ s, pyIsSpace c = true := by
  rw [pyStripList_eq_rdropWhile, List.rdropWhile_eq_nil_iff]
  constructor
  · intro h c hc
    rcases List.mem_append.mp
        (by rw [List.takeWhile_append_dropWhile (p := pyIsSpace)]; exact hc) with h1 | h2
    · exact List.mem_takeWhile_imp h1
    · exact h c h2
  · intro h c hc
    exact h c ((List.dropWhile_sublist (p := pyIsSpace)).subset hc)

theorem truthy_some {l : Line} (h : l ≠ []) : truthy (some l) = true := by
  simp [truthy, h]

theorem keyMatch_key_eq {line k g2 : Line} (h : keyMatch line = some (k, g2)) :
    k = (line.dropWhile pyIsSpace).takeWhile isKeyChar := by
  unfold keyMatch at h
  by_cases hk : (line.dropWhile pyIsSpace).takeWhile isKeyChar = []
  · simp [hk] at h
  · simp only [if_neg hk] at h
    split at h
    · simp only [Option.some.injEq, Prod.mk.injEq] at h
      exact h.1.symm
    · split at h
      · simp only [Option.some.injEq, Prod.mk.injEq] at h
        exact h.1.symm
      · exact absurd h (by simp)
    · exact absurd h (by simp)

theorem keyMatch_key_ne_nil {line k g2 : Line} (h : keyMatch line = some (k, g2)) :
    k ≠ [] := by
  have hk := keyMatch_key_eq h
  intro hnil
  rw [hnil] at hk
  unfold keyMatch at h
  simp [hk.symm] at h

theorem stripped_ne_nil_of_keyMatch {line k g2 : Line} (h : keyMatch line = some (k, g2)) :
    pyStripList line ≠ [] := by
  intro hnil
  rw [pyStrip_eq_nil_iff] at hnil
  have hdrop : line.dropWhile pyIsSpace = [] := List.dropWhile_eq_nil_iff.mpr hnil
  have hk := keyMatch_key_eq h
  rw [hdrop] at hk
  simp at hk
  exact keyMatch_key_ne_nil h hk

theorem headerOf_nil : headerOf [] = none := by decide

/-! Step lemmas: the behaviour of one loop iteration in each of the
configurations the claims are about. -/

theorem step_key_args_indented (st : St) (line k g2 ck : Line)
    (hh : headerOf (pyStripList line) = none)
    (hm : keyMatch line = some (k, g2))
    (hsec : st.current_section = some Sec.args)
    (hk : st.current_key = some ck) (hck : ck ≠ [])
    (hsp : startsWithSpace line = true) :
    processLine st line =
      { st with
        args := dset st.args ck (pyStripList (joinSpace st.current_desc_lines)),
        current_key := some k,
        current_desc_lines := [pyStripList g2] } := by
  have hs := stripped_ne_nil_of_keyMatch hm
  simp [processLine, finalizeStep, sameSectionFlush, sectionContent,
    hs, hh, hsec, hsp, hk, hm, truthy_some hck]

theorem step_key_raises_indented (st : St) (line k g2 ck : Line)
    (hh : headerOf (pyStripList line) = none)
    (hm : keyMatch line = some (k, g2))
    (hsec : st.current_section = some Sec.raises)
    (hk : st.current_key = some ck) (hck : ck ≠ [])
    (hsp : startsWithSpace line = true) :
    processLine st line =
      { st with
        raises := dset st.raises ck (pyStripList (joinSpace st.current_desc_lines)),
        current_key := some k,
        current_desc_lines := [pyStripList g2] } := by
  have hs := stripped_ne_nil_of_keyMatch hm
  simp [processLine, finalizeStep, sameSectionFlush, sectionContent,
    hs, hh, hsec, hsp, hk, hm, truthy_some hck]

theorem step_key_args_nokey (st : St) (line k g2 : Line)
    (hh : headerOf (pyStripList line) = none)
    (hm : keyMatch line = some (k, g2))
    (hsec : st.current_section = some Sec.args)
    (hk : truthy st.current_key = false) :
    processLine st line =
      { st with current_key := some k, current_desc_lines := [pyStripList g2] } := by
  have hs := stripped_ne_nil_of_keyMatch hm
  simp [processLine, finalizeStep, sameSectionFlush, sectionContent,
    hs, hh, hsec, hk, hm]

theorem step_key_raises_nokey (st : St) (line k g2 : Line)
    (hh : headerOf (pyStripList line) = none)
    (hm : keyMatch line = some (k, g2))
    (hsec : st.current_section = some Sec.raises)
    (hk : truthy st.current_key = false) :
    processLine st line =
      { st with current_key := some k, current_desc_lines := [pyStripList g2] } := by
  have hs := stripped_ne_nil_of_keyMatch hm
  simp [processLine, finalizeStep, sameSectionFlush, sectionContent,
    hs, hh, hsec, hk, hm]

theorem step_deindent_args (st : St) (line ck : Line)
    (hs : pyStripList line ≠ [])
    (hh : headerOf (pyStripList line) = none)
    (hsec : st.current_section = some Sec.args)
    (hk : st.current_key = some ck) (hck : ck ≠ [])
    (hsp : startsWithSpace line = false) :
    processLine st line =
      { st with
        args := dset st.args ck (pyStripList (joinSpace st.current_desc_lines)),
        current_key := none, current_desc_lines := [], current_section := none } := by
  simp [processLine, finalizeStep, sameSectionFlush, sectionContent, flushInto,
    hs, hh, hsec, hsp, hk, truthy_some hck]

theorem step_deindent_raises (st : St) (line ck : Line)
    (hs : pyStripList line ≠ [])
    (hh : headerOf (pyStripList line) = none)
    (hsec : st.current_section = some Sec.raises)
    (hk : st.current_key = some ck) (hck : ck ≠ [])
    (hsp : startsWithSpace line = false) :
    processLine st line =
      { st with
        raises := dset st.raises ck (pyStripList (joinSpace st.current_desc_lines)),
        current_key := none, current_desc_lines := [], current_section := none } := by
  simp [processLine, finalizeStep, sameSectionFlush, sectionContent, flushInto,
    hs, hh, hsec, hsp, hk, truthy_some hck]

theorem step_deindent_returns (st : St) (line : Line)
    (hs : pyStripList line ≠ [])
    (hh : headerOf (pyStripList line) = none)
    (hsec : st.current_section = some Sec.returns)
    (hd : st.current_desc_lines ≠ [])
    (hsp : startsWithSpace line = false) :
    processLine st line =
      { st with
        returns := pyStripList (joinSpace st.current_desc_lines),
        current_key := none, current_desc_lines := [], current_section := none } := by
  simp [processLine, finalizeStep, sameSectionFlush, sectionContent, flushInto,
    hs, hh, hsec, hsp, hd]

theorem step_header (st : St) (line : Line) (sec : Sec)
    (hh : headerOf (pyStripList line) = some sec) :
    processLine st line =
      { flushInto st with
        current_key := none, current_desc_lines := [], current_section := some sec } := by
  have hs : pyStripList line ≠ [] := by
    intro hnil
    rw [hnil, headerOf_nil] at hh
    exact Option.noConfusion hh
  simp [processLine, finalizeStep, hs, hh]

theorem step_blank (st : St) (line : Line) (h : pyStripList line = []) :
    processLine st line = st := by
  simp [processLine, h]

theorem step_cont_args (st : St) (line ck : Line)
    (hs : pyStripList line ≠ [])
    (hh : headerOf (pyStripList line) = none)
    (hm : keyMatch line = none)
    (hsec : st.current_section = some Sec.args)
    (hk : st.current_key = some ck) (hck : ck ≠ [])
    (hsp : startsWithSpace line = true) :
    processLine st line =
      { st with current_desc_lines := st.current_desc_lines ++ [pyStripList line] } := by
  simp [processLine, finalizeStep, sameSectionFlush, sectionContent,
    hs, hh, hsec, hsp, hk, hm, truthy_some hck]

theorem step_cont_raises (st : St) (line ck : Line)
    (hs : pyStripList line ≠ [])
    (hh : headerOf (pyStripList line) = none)
    (hm : keyMatch line = none)
    (hsec : st.current_section = some Sec.raises)
    (hk : st.current_key = some ck) (hck : ck ≠ [])
    (hsp : startsWithSpace line = true) :
    processLine st line =
      { st with current_desc_lines := st.current_desc_lines ++ [pyStripList line] } := by
  simp [processLine, finalizeStep, sameSectionFlush, sectionContent,
    hs, hh, hsec, hsp, hk, hm, truthy_some hck]

theorem flushInto_args_key (st : St) (ck : Line)
    (hsec : st.current_section = some Sec.args)
    (hk : st.current_key = some ck) (hck : ck ≠ []) :
    flushInto st =
      { st with args := dset st.args ck (pyStripList (joinSpace st.current_desc_lines)) } := by
  simp [flushInto, hsec, hk, truthy_some hck]

theorem flushInto_raises_key (st : St) (ck : Line)
    (hsec : st.current_section = some Sec.raises)
    (hk : st.current_key = some ck) (hck : ck ≠ []) :
    flushInto st =
      { st with raises := dset st.raises ck (pyStripList (joinSpace st.current_desc_lines)) } := by
  simp [flushInto, hsec, hk, truthy_some hck]

theorem finalCapture_args_key (st : St) (ck : Line)
    (hsec : st.current_section = some Sec.args)
    (hk : st.current_key = some ck) (hck : ck ≠ []) :
    finalCapture st =
      { st with args := dset st.args ck (pyStripList (joinSpace st.current_desc_lines)) } := by
  simp [finalCapture, hsec, hk, truthy_some hck]

theorem finalCapture_raises_key (st : St) (ck : Line)
    (hsec : st.current_section = some Sec.raises)
    (hk : st.current_key = some ck) (hck : ck ≠ []) :
    finalCapture st =
      { st with raises := dset st.raises ck (pyStripList (joinSpace st.current_desc_lines)) } := by
  simp [finalCapture, hsec, hk, truthy_some hck]

theorem finalCapture_returns_empty (st : St)
    (hk : truthy st.current_key = false)
    (hsec : st.current_section = some Sec.returns)
    (hr : st.returns = []) :
    finalCapture st = { st with returns := pyStripList (joinSpace st.current_desc_lines) } := by
  simp [finalCapture, hk, hsec, hr]

theorem finalCapture_returns_kept (st : St)
    (hk : truthy st.current_key = false)
    (hsec : st.current_section = some Sec.returns)
    (hr : st.returns ≠ []) :
    finalCapture st = st := by
  simp [finalCapture, hk, hsec, hr]

theorem step_header_from_returns (st : St) (line : Line) (sec : Sec)
    (hh : headerOf (pyStripList line) = some sec)
    (hsec : st.current_section = some Sec.returns) :
    (processLine st line).returns = pyStripList (joinSpace st.current_desc_lines) := by
  rw [step_header st line sec hh]
  simp [flushInto, hsec]

/-! Dictionary lemmas: Python dict assignment keeps keys unique and the
assigned key maps to the new value. -/

theorem dlookup_isSome_iff (d : Dict) (k : Line) :
    (dlookup d k).isSome = true ↔ k ∈ d.map Prod.fst := by
  induction d with
  | nil => simp [dlookup]
  | cons a rest ih =>
    obtain ⟨ak, av⟩ := a
    by_cases hak : ak = k
    · subst hak
      simp [dlookup]
    · simp [dlookup, hak, ih, Ne.symm hak]

theorem dset_keys_replace (d : Dict) (k v : Line) (h : (dlookup d k).isSome = true) :
    (dset d k v).map Prod.fst = d.map Prod.fst := by
  unfold dset
  rw [if_pos h, List.map_map]
  refine List.map_congr_left ?_
  intro p _
  by_cases hp : p.1 = k
  · simp [hp]
  · simp [hp]

theorem dset_mem_keys_self (d : Dict) (k v : Line) : k ∈ (dset d k v).map Prod.fst := by
  by_cases h : (dlookup d k).isSome = true
  · rw [dset_keys_replace d k v h]
    exact (dlookup_isSome_iff d k).mp h
  · unfold dset
    rw [if_neg h]
    simp

theorem dset_mem_keys_mono (d : Dict) (k v k' : Line) (h : k' ∈ d.map Prod.fst) :
    k' ∈ (dset d k v).map Prod.fst := by
  by_cases hl : (dlookup d k).isSome = true
  · rw [dset_keys_replace d k v hl]; exact h
  · unfold dset
    rw [if_neg hl]
    simp only [List.map_append, List.mem_append]
    exact Or.inl h

theorem dset_keys_nodup (d : Dict) (k v : Line) (h : (d.map Prod.fst).Nodup) :
    ((dset d k v).map Prod.fst).Nodup := by
  by_cases hl : (dlookup d k).isSome = true
  · rw [dset_keys_replace d k v hl]; exact h
  · unfold dset
    rw [if_neg hl]
    simp only [List.map_append, List.map_cons, List.map_nil]
    rw [List.nodup_append]
    refine ⟨h, List.nodup_singleton _, ?_⟩
    intro a ha hb
    simp only [List.mem_singleton] at hb
    rw [hb] at ha
    exact hl ((dlookup_isSome_iff d k).mpr ha)

theorem dset_dlookup_self (d : Dict) (k v : Line) : dlookup (dset d k v) k = some v := by
  induction d with
  | nil => simp [dset, dlookup]
  | cons a rest ih =>
    obtain ⟨ak, av⟩ := a
    by_cases hak : ak = k
    · subst hak
      simp [dset, dlookup]
    · by_cases hl : (dlookup rest k).isSome = true
      · have hcons : dlookup ((ak, av) :: rest) k = dlookup rest k := by simp [dlookup, hak]
        unfold dset
        rw [hcons, if_pos hl]
        simp only [List.map_cons]
        have hfa : (if ((ak, av) : Line × Line).1 = k then (k, v) else (ak, av)) = (ak, av) := by
          simp [hak]
        rw [hfa]
        unfold dset at ih
        rw [if_pos hl] at ih
        simp [dlookup, hak, ih]
      · have hcons : dlookup ((ak, av) :: rest) k = dlookup rest k := by simp [dlookup, hak]
        unfold dset
        rw [hcons, if_neg hl]
        unfold dset at ih
        rw [if_neg hl] at ih
        simp only [List.cons_append]
        simp [dlookup, hak, ih]

/-! Shape lemmas: every mutation of the `args` / `raises` dictionaries in
the loop body is a single dictionary assignment. -/

theorem flushInto_args_cases (st : St) :
    (flushInto st).args = st.args ∨ ∃ kk vv, (flushInto st).args = dset st.args kk vv := by
  unfold flushInto
  repeat' split
  all_goals first
    | exact Or.inl rfl
    | exact Or.inr ⟨_, _, rfl⟩

theorem flushInto_raises_cases (st : St) :
    (flushInto st).raises = st.raises ∨
      ∃ kk vv, (flushInto st).raises = dset st.raises kk vv := by
  unfold flushInto
  repeat' split
  all_goals first
    | exact Or.inl rfl
    | exact Or.inr ⟨_, _, rfl⟩

theorem finalizeStep_args_cases (st : St) (line : Line) (ns : Option Sec) :
    (finalizeStep st line ns).args = st.args ∨
      ∃ kk vv, (finalizeStep st line ns).args = dset st.args kk vv := by
  unfold finalizeStep
  split
  · exact flushInto_args_cases st
  · exact Or.inl rfl

theorem finalizeStep_raises_cases (st : St) (line : Line) (ns : Option Sec) :
    (finalizeStep st line ns).raises = st.raises ∨
      ∃ kk vv, (finalizeStep st line ns).raises = dset st.raises kk vv := by
  unfold finalizeStep
  split
  · exact flushInto_raises_cases st
  · exact Or.inl rfl

theorem sameSectionFlush_args_cases (st : St) :
    (sameSectionFlush st).args = st.args ∨
      ∃ kk vv, (sameSectionFlush st).args = dset st.args kk vv := by
  unfold sameSectionFlush
  repeat' split
  all_goals first
    | exact Or.inl rfl
    | exact Or.inr ⟨_, _, rfl⟩

theorem sameSectionFlush_raises_cases (st : St) :
    (sameSectionFlush st).raises = st.raises ∨
      ∃ kk vv, (sameSectionFlush st).raises = dset st.raises kk vv := by
  unfold sameSectionFlush
  repeat' split
  all_goals first
    | exact Or.inl rfl
    | exact Or.inr ⟨_, _, rfl⟩

theorem sectionContent_args_cases (st1 : St) (line stripped_line : Line) :
    (sectionContent st1 line stripped_line).args = st1.args ∨
      ∃ kk vv, (sectionContent st1 line stripped_line).args = dset st1.args kk vv := by
  unfold sectionContent
  repeat' split
  all_goals first
    | exact Or.inl rfl
    | exact sameSectionFlush_args_cases st1

theorem sectionContent_raises_cases (st1 : St) (line stripped_line : Line) :
    (sectionContent st1 line stripped_line).raises = st1.raises ∨
      ∃ kk vv, (sectionContent st1 line stripped_line).raises = dset st1.raises kk vv := by
  unfold sectionContent
  repeat' split
  all_goals first
    | exact Or.inl rfl
    | exact sameSectionFlush_raises_cases st1

/-! Preservation of key uniqueness and key membership through the loop. -/

theorem nodup_of_args_cases {a b : Dict}
    (h : b = a ∨ ∃ kk vv, b = dset a kk vv)
    (ha : (a.map Prod.fst).Nodup) : (b.map Prod.fst).Nodup := by
  rcases h with h | ⟨kk, vv, h⟩
  · rw [h]; exact ha
  · rw [h]; exact dset_keys_nodup a kk vv ha

theorem mem_of_args_cases {a b : Dict} {k : Line}
    (h : b = a ∨ ∃ kk vv, b = dset a kk vv)
    (hk : k ∈ a.map Prod.fst) : k ∈ b.map Prod.fst := by
  rcases h with h | ⟨kk, vv, h⟩
  · rw [h]; exact hk
  · rw [h]; exact dset_mem_keys_mono a kk vv k hk

theorem processLine_args_nodup (st : St) (line : Line)
    (h : (st.args.map Prod.fst).Nodup) :
    ((processLine st line).args.map Prod.fst).Nodup := by
  unfold processLine
  simp only
  split
  · exact h
  · split
    · exact nodup_of_args_cases (finalizeStep_args_cases st line _) h
    · exact nodup_of_args_cases (sectionContent_args_cases _ line _)
        (nodup_of_args_cases (finalizeStep_args_cases st line _) h)

theorem processLine_raises_nodup (st : St) (line : Line)
    (h : (st.raises.map Prod.fst).Nodup) :
    ((processLine st line).raises.map Prod.fst).Nodup := by
  unfold processLine
  simp only
  split
  · exact h
  · split
    · exact nodup_of_args_cases (finalizeStep_raises_cases st line _) h
    · exact nodup_of_args_cases (sectionContent_raises_cases _ line _)
        (nodup_of_args_cases (finalizeStep_raises_cases st line _) h)

theorem processLine_args_mem (st : St) (line : Line) {k : Line}
    (h : k ∈ st.args.map Prod.fst) :
    k ∈ (processLine st line).args.map Prod.fst := by
  unfold processLine
  simp only
  split
  · exact h
  · split
    · exact mem_of_args_cases (finalizeStep_args_cases st line _) h
    · exact mem_of_args_cases (sectionContent_args_cases _ line _)
        (mem_of_args_cases (finalizeStep_args_cases st line _) h)

theorem processLine_raises_mem (st : St) (line : Line) {k : Line}
    (h : k ∈ st.raises.map Prod.fst) :
    k ∈ (processLine st line).raises.map Prod.fst := by
  unfold processLine
  simp only
  split
  · exact h
  · split
    · exact mem_of_args_cases (finalizeStep_raises_cases st line _) h
    · exact mem_of_args_cases (sectionContent_raises_cases _ line _)
        (mem_of_args_cases (finalizeStep_raises_cases st line _) h)

theorem finalCapture_args_cases (st : St) :
    (finalCapture st).args = st.args ∨
      ∃ kk vv, (finalCapture st).args = dset st.args kk vv := by
  unfold finalCapture
  repeat' split
  all_goals first
    | exact Or.inl rfl
    | exact Or.inr ⟨_, _, rfl⟩

theorem finalCapture_raises_cases (st : St) :
    (finalCapture st).raises = st.raises ∨
      ∃ kk vv, (finalCapture st).raises = dset st.raises kk vv := by
  unfold finalCapture
  repeat' split
  all_goals first
    | exact Or.inl rfl
    | exact Or.inr ⟨_, _, rfl⟩

theorem foldl_args_nodup (ls : List Line) (st : St)
    (h : (st.args.map Prod.fst).Nodup) :
    ((List.foldl processLine st ls).args.map Prod.fst).Nodup := by
  induction ls generalizing st with
  | nil => exact h
  | cons l ls ih => exact ih _ (processLine_args_nodup st l h)

theorem foldl_raises_nodup (ls : List Line) (st : St)
    (h : (st.raises.map Prod.fst).Nodup) :
    ((List.foldl processLine st ls).raises.map Prod.fst).Nodup := by
  induction ls generalizing st with
  | nil => exact h
  | cons l ls ih => exact ih _ (processLine_raises_nodup st l h)

/-! Pending-key invariant: a key that is either already in the `args`
dictionary or currently open as the pending key of the Args section ends
up in the `args` dictionary (and likewise for Raises). -/

theorem pending_args_step (st : St) (line : Line) (k : Line)
    (h : k ∈ st.args.map Prod.fst ∨
         (st.current_section = some Sec.args ∧ st.current_key = some k ∧ k ≠ [])) :
    k ∈ (processLine st line).args.map Prod.fst ∨
      ((processLine st line).current_section = some Sec.args ∧
       (processLine st line).current_key = some k ∧ k ≠ []) := by
  rcases h with hmem | ⟨hsec, hk, hck⟩
  · exact Or.inl (processLine_args_mem st line hmem)
  · by_cases hb : pyStripList line = []
    · rw [step_blank st line hb]
      exact Or.inr ⟨hsec, hk, hck⟩
    · cases hh : headerOf (pyStripList line) with
      | some sec =>
        left
        have hargs : (processLine st line).args = (flushInto st).args := by
          rw [step_header st line sec hh]
        rw [hargs, flushInto_args_key st k hsec hk hck]
        exact dset_mem_keys_self st.args k _
      | none =>
        by_cases hsp : startsWithSpace line = true
        · cases hm : keyMatch line with
          | some kv =>
            obtain ⟨k', g2⟩ := kv
            rw [step_key_args_indented st line k' g2 k hh hm hsec hk hck hsp]
            exact Or.inl (dset_mem_keys_self st.args k _)
          | none =>
            rw [step_cont_args st line k hb hh hm hsec hk hck hsp]
            exact Or.inr ⟨hsec, hk, hck⟩
        · have hsp' : startsWithSpace line = false := by
            cases hv : startsWithSpace line
            · rfl
            · exact absurd hv hsp
          rw [step_deindent_args st line k hb hh hsec hk hck hsp']
          exact Or.inl (dset_mem_keys_self st.args k _)

theorem pending_raises_step (st : St) (line : Line) (k : Line)
    (h : k ∈ st.raises.map Prod.fst ∨
         (st.current_section = some Sec.raises ∧ st.current_key = some k ∧ k ≠ [])) :
    k ∈ (processLine st line).raises.map Prod.fst ∨
      ((processLine st line).current_section = some Sec.raises ∧
       (processLine st line).current_key = some k ∧ k ≠ []) := by
  rcases h with hmem | ⟨hsec, hk, hck⟩
  · exact Or.inl (processLine_raises_mem st line hmem)
  · by_cases hb : pyStripList line = []
    · rw [step_blank st line hb]
      exact Or.inr ⟨hsec, hk, hck⟩
    · cases hh : headerOf (pyStripList line) with
      | some sec =>
        left
        have hargs : (processLine st line).raises = (flushInto st).raises := by
          rw [step_header st line sec hh]
        rw [hargs, flushInto_raises_key st k hsec hk hck]
        exact dset_mem_keys_self st.raises k _
      | none =>
        by_cases hsp : startsWithSpace line = true
        · cases hm : keyMatch line with
          | some kv =>
            obtain ⟨k', g2⟩ := kv
            rw [step_key_raises_indented st line k' g2 k hh hm hsec hk hck hsp]
            exact Or.inl (dset_mem_keys_self st.raises k _)
          | none =>
            rw [step_cont_raises st line k hb hh hm hsec hk hck hsp]
            exact Or.inr ⟨hsec, hk, hck⟩
        · have hsp' : startsWithSpace line = false := by
            cases hv : startsWithSpace line
            · rfl
            · exact absurd hv hsp
          rw [step_deindent_raises st line k hb hh hsec hk hck hsp']
          exact Or.inl (dset_mem_keys_self st.raises k _)

theorem pending_args_foldl (ls : List Line) (st : St) (k : Line)
    (h : k ∈ st.args.map Prod.fst ∨
         (st.current_section = some Sec.args ∧ st.current_key = some k ∧ k ≠ [])) :
    k ∈ (List.foldl processLine st ls).args.map Prod.fst ∨
      ((List.foldl processLine st ls).current_section = some Sec.args ∧
       (List.foldl processLine st ls).current_key = some k ∧ k ≠ []) := by
  induction ls generalizing st with
  | nil => exact h
  | cons l ls ih => exact ih _ (pending_args_step st l k h)

theorem pending_raises_foldl (ls : List Line) (st : St) (k : Line)
    (h : k ∈ st.raises.map Prod.fst ∨
         (st.current_section = some Sec.raises ∧ st.current_key = some k ∧ k ≠ [])) :
    k ∈ (List.foldl processLine st ls).raises.map Prod.fst ∨
      ((List.foldl processLine st ls).current_section = some Sec.raises ∧
       (List.foldl processLine st ls).current_key = some k ∧ k ≠ []) := by
  induction ls generalizing st with
  | nil => exact h
  | cons l ls ih => exact ih _ (pending_raises_step st l k h)

theorem pending_args_final (st : St) (k : Line)
    (h : k ∈ st.args.map Prod.fst ∨
         (st.current_section = some Sec.args ∧ st.current_key = some k ∧ k ≠ [])) :
    k ∈ (finalCapture st).args.map Prod.fst := by
  rcases h with hmem | ⟨hsec, hk, hck⟩
  · exact mem_of_args_cases (finalCapture_args_cases st) hmem
  · rw [finalCapture_args_key st k hsec hk hck]
    exact dset_mem_keys_self st.args k _

theorem pending_raises_final (st : St) (k : Line)
    (h : k ∈ st.raises.map Prod.fst ∨
         (st.current_section = some Sec.raises ∧ st.current_key = some k ∧ k ≠ [])) :
    k ∈ (finalCapture st).raises.map Prod.fst := by
  rcases h with hmem | ⟨hsec, hk, hck⟩
  · exact mem_of_args_cases (finalCapture_raises_cases st) hmem
  · rw [finalCapture_raises_key st k hsec hk hck]
    exact dset_mem_keys_self st.raises k _

set_option maxHeartbeats 2000000 in
theorem splitlinesGo_ne_nil_aux (n : Nat) :
    ∀ (s acc : Line), s.length ≤ n → acc ≠ [] ∨ s ≠ [] → splitlinesGo acc s ≠ [] := by
  induction n with
  | zero =>
    intro s acc hle h
    have hs : s = [] := List.length_eq_zero.mp (Nat.le_zero.mp hle)
    subst hs
    rcases h with h | h
    · simp [splitlinesGo, h]
    · exact absurd rfl h
  | succ n ih =>
    intro s acc hle h
    rw [splitlinesGo.eq_def]
    split
    · rcases h with h | h
      · simp [h]
      · exact absurd rfl h
    · simp
    · split
      · simp
      · refine ih _ _ ?_ (Or.inl (by simp))
        simpa using hle

theorem splitlinesGo_ne_nil (s acc : Line) (h : acc ≠ [] ∨ s ≠ []) :
    splitlinesGo acc s ≠ [] :=
  splitlinesGo_ne_nil_aux s.length s acc (Nat.le_refl _) h

theorem pySplitlines_ne_nil {s : Line} (h : s ≠ []) : pySplitlines s ≠ [] :=
  splitlinesGo_ne_nil s [] (Or.inr h)

theorem startsWithSeq_iff (p s : Line) : startsWithSeq p s = true ↔ p <+: s := by
  induction p generalizing s with
  | nil => simp [startsWithSeq, List.nil_prefix]
  | cons a p ih =>
    cases s with
    | nil => simp [startsWithSeq]
    | cons b s =>
      by_cases hab : a = b
      · subst hab
        simp [startsWithSeq, List.cons_prefix_cons, ih]
      · simp [startsWithSeq, hab, List.cons_prefix_cons]

theorem startsWithSeq_comparable {p q s : Line}
    (hp : startsWithSeq p s = true) (hq : startsWithSeq q s = true) :
    startsWithSeq p q = true ∨ startsWithSeq q p = true := by
  rw [startsWithSeq_iff] at hp hq ⊢
  rw [startsWithSeq_iff]
  exact List.prefix_or_prefix_of_prefix hp hq

/-! Claim theorems. -/

/-- Claim C6: the parse operation is total (it is a Lean function into
`ParsedDoc`, so it can signal no error), and absent input, empty input and
whitespace-only input all yield the empty record
`{summary: "", args: {}, returns: "", raises: {}}`. -/
theorem c6_theorem :
    parse_docstring none = emptyDoc ∧
    (∀ s : String, (∀ c ∈ s.data, pyIsSpace c = true) → parse_docstring (some s) = emptyDoc) := by
  refine ⟨rfl, ?_⟩
  intro s h
  simp only [parse_docstring]
  by_cases hs : s.data = []
  · rw [if_pos hs]
  · rw [if_neg hs]
    have hstrip : pyStripList s.data = [] := pyStrip_eq_nil_iff.mpr h
    rw [hstrip]
    rfl

/-- Witness for C6 at the whitespace-only input `"  \n\t "` (the empty
input is covered by the first conjunct of the theorem, applied via the
theorem's own proof of `parse_docstring none = emptyDoc`). -/
theorem c6_witness : parse_docstring (some ( "  \n\t " )) = emptyDoc :=
  c6_theorem.2 ( "  \n\t " ) (by decide)

/-- Claim C5: for input with at least one non-whitespace character, the
summary is the trimmed first line (index 0) of the whole-text-trimmed
input, regardless of that line's content. -/
theorem c5_theorem (s : String) (h : ∃ c ∈ s.data, pyIsSpace c = false) :
    ∃ l ls, pySplitlines (pyStripList s.data) = l :: ls ∧
      (parse_docstring (some s)).summary = pyStripList l := by
  obtain ⟨c, hc, hcf⟩ := h
  have hne : s.data ≠ [] := by
    intro hnil
    rw [hnil] at hc
    exact absurd hc (List.not_mem_nil c)
  have hstrip : pyStripList s.data ≠ [] := by
    intro hnil
    rw [pyStrip_eq_nil_iff] at hnil
    rw [hnil c hc] at hcf
    exact Bool.noConfusion hcf
  obtain ⟨l, ls, hcons⟩ := List.exists_cons_of_ne_nil (pySplitlines_ne_nil hstrip)
  refine ⟨l, ls, hcons, ?_⟩
  simp only [parse_docstring]
  rw [if_neg hne, hcons]
  rfl

/-- Witness for C5 at an input whose first line looks like a section
header: the summary is still that first line. -/
theorem c5_witness :
    ∃ l ls, pySplitlines (pyStripList (( "Args:\ncontent" ).data)) = l :: ls ∧
      (parse_docstring (some ( "Args:\ncontent" ))).summary = pyStripList l :=
  c5_theorem ( "Args:\ncontent" ) (by decide)

/-- Claim C8: a line whose trimmed form is empty is skipped by the loop,
so inserting it anywhere after the first line leaves the parse of the
line sequence, and hence the resulting record, unchanged. -/
theorem c8_theorem (b : Line) (hb : pyStripList b = []) :
    (∀ (st : St) (ls1 ls2 : List Line),
      List.foldl processLine st (ls1 ++ b :: ls2) = List.foldl processLine st (ls1 ++ ls2)) ∧
    (∀ (first : Line) (ls1 ls2 : List Line),
      parseFromLines (first :: (ls1 ++ b :: ls2)) = parseFromLines (first :: (ls1 ++ ls2))) := by
  have h1 : ∀ (st : St) (ls1 ls2 : List Line),
      List.foldl processLine st (ls1 ++ b :: ls2) = List.foldl processLine st (ls1 ++ ls2) := by
    intro st ls1 ls2
    rw [List.foldl_append, List.foldl_append, List.foldl_cons, step_blank _ b hb]
  refine ⟨h1, ?_⟩
  intro first ls1 ls2
  simp only [parseFromLines]
  rw [h1]

/-- Witness for C8: a blank line inside an argument description does not
change the parse; in particular the description still joins into one
space-separated string across the blank line. -/
theorem c8_witness :
    parseFromLines (( "Summary" ).data ::
        (([( "Args:" ).data, ( "    x: first part" ).data] : List Line) ++
          ( "   " ).data :: [( "    second part" ).data])) =
      parseFromLines (( "Summary" ).data ::
        (([( "Args:" ).data, ( "    x: first part" ).data] : List Line) ++
          [( "    second part" ).data])) :=
  (c8_theorem ( "   " ).data (by decide)).2 ( "Summary" ).data
    [( "Args:" ).data, ( "    x: first part" ).data] [( "    second part" ).data]

/-- Claim C1 counterexample: with pending key `x` open in Args, the
unindented line `y: b` matches the key pattern, yet `y` does not appear in
the returned mapping — the de-indentation branch flushes `x` and resets the
section before the key pattern is ever consulted, contradicting the claim
that both keys appear whether or not the matching line is indented. -/
theorem c1_counterexample :
    keyMatch (( "y: b" ).data) = some (( "y" ).data, ( "b" ).data) ∧
    startsWithSpace (( "y: b" ).data) = false ∧
    (parse_docstring (some ( "S\nArgs:\n    x: a\ny: b" ))).args =
      [(( "x" ).data, ( "a" ).data)] ∧
    dlookup (parse_docstring (some ( "S\nArgs:\n    x: a\ny: b" ))).args (( "y" ).data) =
      none := by
  exact ⟨rfl, rfl, rfl, rfl⟩

/-- Claim C2 counterexample: after the unindented paragraph terminates the
pending entry, the section state is reset to `None` (not kept at Args), so
the later indented key-line `    y: b` is not captured, contradicting the
claim that it would land in the same section's mapping. -/
theorem c2_counterexample :
    headerOf (pyStripList (( "plain paragraph" ).data)) = none ∧
    keyMatch (( "    y: b" ).data) = some (( "y" ).data, ( "b" ).data) ∧
    (parse_docstring (some ( "S\nArgs:\n    x: a\nplain paragraph\n    y: b" ))).args =
      [(( "x" ).data, ( "a" ).data)] ∧
    dlookup (parse_docstring
        (some ( "S\nArgs:\n    x: a\nplain paragraph\n    y: b" ))).args
      (( "y" ).data) = none := by
  exact ⟨rfl, rfl, rfl, rfl⟩

/-- Claim C3 counterexample: the Yields section is last and has the
accumulated line `b` when input ends, but an earlier flush had already set
`returns` to `a`; the end-of-input flush is skipped because `returns` is
already non-empty, so the result keeps `a`, not the final accumulation. -/
theorem c3_counterexample :
    (parse_docstring (some ( "S\nReturns:\n    a\nYields:\n    b" ))).returns =
      ( "a" ).data ∧
    (parse_docstring (some ( "S\nReturns:\n    a\nYields:\n    b" ))).returns ≠
      ( "b" ).data := by
  exact ⟨rfl, by decide⟩

/-- Claim C7 counterexample: the indented line `    errors: bad` matches
the key pattern while the pending key `a` is open in Args, yet it is not
interpreted as a new key-line: header detection (prefix `errors:`) wins,
the line switches the parser to the Raises section, and no entry for
`errors` is created anywhere. -/
theorem c7_counterexample :
    keyMatch (( "    errors: bad" ).data) = some (( "errors" ).data, ( "bad" ).data) ∧
    startsWithSpace (( "    errors: bad" ).data) = true ∧
    parse_docstring (some ( "S\nArgs:\n    a: 1\n    errors: bad" )) =
      ⟨( "S" ).data, [(( "a" ).data, ( "1" ).data)], [], []⟩ := by
  exact ⟨rfl, rfl, rfl⟩

/-- Claim C1 (amended): inside Args or Raises with a pending key open, a
non-header line matching the key pattern flushes the pending entry and
opens a new pending entry with the captured identifier only when the line
starts with leading whitespace; when it does not, de-indentation
termination wins instead: the pending entry is flushed but the section is
reset and the matching line is not captured, so only the first key appears
in the returned mapping. -/
theorem c1_theorem (st : St) (line k g2 ck : Line)
    (hh : headerOf (pyStripList line) = none)
    (hm : keyMatch line = some (k, g2))
    (hk : st.current_key = some ck) (hck : ck ≠ []) :
    (st.current_section = some Sec.args → startsWithSpace line = true →
      processLine st line =
        { st with args := dset st.args ck (pyStripList (joinSpace st.current_desc_lines)),
                  current_key := some k, current_desc_lines := [pyStripList g2] }) ∧
    (st.current_section = some Sec.raises → startsWithSpace line = true →
      processLine st line =
        { st with raises := dset st.raises ck (pyStripList (joinSpace st.current_desc_lines)),
                  current_key := some k, current_desc_lines := [pyStripList g2] }) ∧
    (st.current_section = some Sec.args → startsWithSpace line = false →
      processLine st line =
        { st with args := dset st.args ck (pyStripList (joinSpace st.current_desc_lines)),
                  current_key := none, current_desc_lines := [], current_section := none }) ∧
    (st.current_section = some Sec.raises → startsWithSpace line = false →
      processLine st line =
        { st with raises := dset st.raises ck (pyStripList (joinSpace st.current_desc_lines)),
                  current_key := none, current_desc_lines := [], current_section := none }) :=
  ⟨fun hsec hsp => step_key_args_indented st line k g2 ck hh hm hsec hk hck hsp,
   fun hsec hsp => step_key_raises_indented st line k g2 ck hh hm hsec hk hck hsp,
   fun hsec hsp =>
     step_deindent_args st line ck (stripped_ne_nil_of_keyMatch hm) hh hsec hk hck hsp,
   fun hsec hsp =>
     step_deindent_raises st line ck (stripped_ne_nil_of_keyMatch hm) hh hsec hk hck hsp⟩

/-- Witness for C1 at a concrete state with pending key `x` in Args: the
indented key line `    y: b` flushes `x` and opens `y`; the unindented
key line `y: b` flushes `x` and resets the section. -/
theorem c1_witness :
    processLine ⟨[], [], [], some Sec.args, some (( "x" ).data), [( "a" ).data]⟩
        (( "    y: b" ).data) =
      ⟨dset [] (( "x" ).data) (pyStripList (joinSpace [( "a" ).data])), [], [],
        some Sec.args, some (( "y" ).data), [pyStripList (( "b" ).data)]⟩ ∧
    processLine ⟨[], [], [], some Sec.args, some (( "x" ).data), [( "a" ).data]⟩
        (( "y: b" ).data) =
      ⟨dset [] (( "x" ).data) (pyStripList (joinSpace [( "a" ).data])), [], [],
        none, none, []⟩ :=
  ⟨(c1_theorem ⟨[], [], [], some Sec.args, some (( "x" ).data), [( "a" ).data]⟩
      (( "    y: b" ).data) (( "y" ).data) (( "b" ).data) (( "x" ).data)
      (by decide) (by decide) rfl (by decide)).1 rfl (by decide),
   (c1_theorem ⟨[], [], [], some Sec.args, some (( "x" ).data), [( "a" ).data]⟩
      (( "y: b" ).data) (( "y" ).data) (( "b" ).data) (( "x" ).data)
      (by decide) (by decide) rfl (by decide)).2.2.1 rfl (by decide)⟩

/-- Claim C2 (amended): de-indentation termination flushes the current
item but also resets the section state to `None` — it does not stay in
the same section, so content arriving after the terminating line and
before any new header is not captured into the section's field. -/
theorem c2_theorem (st : St) (line : Line)
    (hs : pyStripList line ≠ [])
    (hh : headerOf (pyStripList line) = none)
    (hsp : startsWithSpace line = false) :
    (∀ ck, st.current_section = some Sec.args → st.current_key = some ck → ck ≠ [] →
      processLine st line =
        { st with args := dset st.args ck (pyStripList (joinSpace st.current_desc_lines)),
                  current_key := none, current_desc_lines := [], current_section := none }) ∧
    (∀ ck, st.current_section = some Sec.raises → st.current_key = some ck → ck ≠ [] →
      processLine st line =
        { st with raises := dset st.raises ck (pyStripList (joinSpace st.current_desc_lines)),
                  current_key := none, current_desc_lines := [], current_section := none }) ∧
    (st.current_section = some Sec.returns → st.current_desc_lines ≠ [] →
      processLine st line =
        { st with returns := pyStripList (joinSpace st.current_desc_lines),
                  current_key := none, current_desc_lines := [], current_section := none }) :=
  ⟨fun ck hsec hk hck => step_deindent_args st line ck hs hh hsec hk hck hsp,
   fun ck hsec hk hck => step_deindent_raises st line ck hs hh hsec hk hck hsp,
   fun hsec hd => step_deindent_returns st line hs hh hsec hd hsp⟩

/-- Witness for C2 at a concrete pending-key state and a concrete
unindented non-header line: the item is flushed and the section is reset. -/
theorem c2_witness :
    processLine ⟨[], [], [], some Sec.args, some (( "x" ).data), [( "a" ).data]⟩
        (( "plain paragraph" ).data) =
      ⟨dset [] (( "x" ).data) (pyStripList (joinSpace [( "a" ).data])), [], [],
        none, none, []⟩ ∧
    processLine ⟨[], [], [], some Sec.returns, none, [( "a" ).data]⟩
        (( "plain paragraph" ).data) =
      ⟨[], pyStripList (joinSpace [( "a" ).data]), [], none, none, []⟩ :=
  ⟨(c2_theorem ⟨[], [], [], some Sec.args, some (( "x" ).data), [( "a" ).data]⟩
      (( "plain paragraph" ).data) (by decide) (by decide) (by decide)).1
      (( "x" ).data) rfl rfl (by decide),
   (c2_theorem ⟨[], [], [], some Sec.returns, none, [( "a" ).data]⟩
      (( "plain paragraph" ).data) (by decide) (by decide) (by decide)).2.2
      rfl (by decide)⟩

/-- Claim C3 (amended): accumulated Returns lines are flushed into the
`returns` field at each section-header transition, the later header flush
overwriting the earlier value; at end of input, however, the accumulation
is committed only if `returns` is still empty — a non-empty value set by
an earlier flush is kept and the final accumulation is discarded. -/
theorem c3_theorem (st : St) :
    (∀ (line : Line) (sec : Sec), headerOf (pyStripList line) = some sec →
      st.current_section = some Sec.returns →
      (processLine st line).returns = pyStripList (joinSpace st.current_desc_lines)) ∧
    (truthy st.current_key = false → st.current_section = some Sec.returns →
      st.returns ≠ [] → finalCapture st = st) ∧
    (truthy st.current_key = false → st.current_section = some Sec.returns →
      st.returns = [] →
      finalCapture st = { st with returns := pyStripList (joinSpace st.current_desc_lines) }) :=
  ⟨fun line sec hh hsec => step_header_from_returns st line sec hh hsec,
   fun hk hsec hr => finalCapture_returns_kept st hk hsec hr,
   fun hk hsec hr => finalCapture_returns_empty st hk hsec hr⟩

/-- Witness for C3: a Yields header flushes (and overwrites) the Returns
accumulation, while at end of input a state whose `returns` is already
non-empty is left unchanged and one with empty `returns` is flushed. -/
theorem c3_witness :
    (processLine ⟨[], ( "old" ).data, [], some Sec.returns, none, [( "b" ).data]⟩
        (( "Yields:" ).data)).returns = pyStripList (joinSpace [( "b" ).data]) ∧
    finalCapture ⟨[], ( "a" ).data, [], some Sec.returns, none, [( "b" ).data]⟩ =
      ⟨[], ( "a" ).data, [], some Sec.returns, none, [( "b" ).data]⟩ ∧
    finalCapture ⟨[], [], [], some Sec.returns, none, [( "b" ).data]⟩ =
      ⟨[], pyStripList (joinSpace [( "b" ).data]), [], some Sec.returns, none,
        [( "b" ).data]⟩ :=
  ⟨(c3_theorem ⟨[], ( "old" ).data, [], some Sec.returns, none, [( "b" ).data]⟩).1
      (( "Yields:" ).data) Sec.returns (by decide) rfl,
   (c3_theorem ⟨[], ( "a" ).data, [], some Sec.returns, none, [( "b" ).data]⟩).2.1
      rfl rfl (by decide),
   (c3_theorem ⟨[], [], [], some Sec.returns, none, [( "b" ).data]⟩).2.2
      rfl rfl rfl⟩

/-- Claim C7 (amended): inside Args or Raises with a pending key open, an
indented line that matches the key pattern and is not itself recognized
as a section header is interpreted as a new key-line, not as a
continuation: the pending entry is flushed with only its previously
accumulated description and a fresh pending entry is opened under the
captured identifier. -/
theorem c7_theorem (st : St) (line k g2 ck : Line)
    (hh : headerOf (pyStripList line) = none)
    (hm : keyMatch line = some (k, g2))
    (hk : st.current_key = some ck) (hck : ck ≠ [])
    (hsp : startsWithSpace line = true) :
    (st.current_section = some Sec.args →
      processLine st line =
        { st with args := dset st.args ck (pyStripList (joinSpace st.current_desc_lines)),
                  current_key := some k, current_desc_lines := [pyStripList g2] }) ∧
    (st.current_section = some Sec.raises →
      processLine st line =
        { st with raises := dset st.raises ck (pyStripList (joinSpace st.current_desc_lines)),
                  current_key := some k, current_desc_lines := [pyStripList g2] }) :=
  ⟨fun hsec => step_key_args_indented st line k g2 ck hh hm hsec hk hck hsp,
   fun hsec => step_key_raises_indented st line k g2 ck hh hm hsec hk hck hsp⟩

/-- Witness for C7: an indented line that could equally be read as a
continuation of the open entry (`        default: 3`) starts a new entry
under the key `default` instead of extending the pending description. -/
theorem c7_witness :
    processLine ⟨[], [], [], some Sec.args, some (( "code" ).data), [( "the code" ).data]⟩
        (( "        default: 3" ).data) =
      ⟨dset [] (( "code" ).data) (pyStripList (joinSpace [( "the code" ).data])), [], [],
        some Sec.args, some (( "default" ).data), [pyStripList (( "3" ).data)]⟩ :=
  (c7_theorem ⟨[], [], [], some Sec.args, some (( "code" ).data), [( "the code" ).data]⟩
      (( "        default: 3" ).data) (( "default" ).data) (( "3" ).data)
      (( "code" ).data) (by decide) (by decide) rfl (by decide) (by decide)).1 rfl

/-- Claim C9: keys are unique in the returned args and raises mappings of
every parse; dictionary assignment binds the assigned key to the new value
(so a duplicate key keeps only the later occurrence's description, with no
merging), and on the concrete duplicate-key input the later description
wins. -/
theorem c9_theorem :
    (∀ ls : List Line, ((parseFromLines ls).args.map Prod.fst).Nodup ∧
        ((parseFromLines ls).raises.map Prod.fst).Nodup) ∧
    (∀ (d : Dict) (k v : Line), dlookup (dset d k v) k = some v) ∧
    parse_docstring (some ( "S\nArgs:\n    x: a\n    x: b" )) =
      ⟨( "S" ).data, [(( "x" ).data, ( "b" ).data)], [], []⟩ := by
  refine ⟨?_, dset_dlookup_self, rfl⟩
  intro ls
  cases ls with
  | nil => exact ⟨by simp [parseFromLines, emptyDoc], by simp [parseFromLines, emptyDoc]⟩
  | cons first rest =>
    constructor
    · have h1 : ((List.foldl processLine initSt rest).args.map Prod.fst).Nodup :=
        foldl_args_nodup rest initSt (by simp [initSt])
      have h2 : ((finalCapture (List.foldl processLine initSt rest)).args.map
          Prod.fst).Nodup :=
        nodup_of_args_cases (finalCapture_args_cases _) h1
      simpa only [parseFromLines] using h2
    · have h1 : ((List.foldl processLine initSt rest).raises.map Prod.fst).Nodup :=
        foldl_raises_nodup rest initSt (by simp [initSt])
      have h2 : ((finalCapture (List.foldl processLine initSt rest)).raises.map
          Prod.fst).Nodup :=
        nodup_of_args_cases (finalCapture_raises_cases _) h1
      simpa only [parseFromLines] using h2

/-- Claim C10: a non-header key-line whose colon may be followed by
nothing, processed inside Args or Raises while it is treated as a
key-line (it is indented, or no pending key is open), always produces an
entry for the captured key in that section's returned mapping; when no
further lines follow and no pending key was open, the key is bound to the
trimmed captured remainder — the empty string for a bare `x:`. -/
theorem c10_theorem (st : St) (line k g2 : Line) (ls : List Line)
    (hh : headerOf (pyStripList line) = none)
    (hm : keyMatch line = some (k, g2))
    (hsp : startsWithSpace line = true ∨ truthy st.current_key = false) :
    (st.current_section = some Sec.args →
      k ∈ (finalCapture (List.foldl processLine st (line :: ls))).args.map Prod.fst) ∧
    (st.current_section = some Sec.raises →
      k ∈ (finalCapture (List.foldl processLine st (line :: ls))).raises.map Prod.fst) ∧
    (st.current_section = some Sec.args → st.current_key = none →
      dlookup (finalCapture (processLine st line)).args k =
        some (pyStripList (joinSpace [pyStripList g2]))) := by
  have hck := keyMatch_key_ne_nil hm
  refine ⟨?_, ?_, ?_⟩
  · intro hsec
    have hP : k ∈ (processLine st line).args.map Prod.fst ∨
        ((processLine st line).current_section = some Sec.args ∧
         (processLine st line).current_key = some k ∧ k ≠ []) := by
      rcases hsp with hsp | hkf
      · cases hkopt : st.current_key with
        | none =>
          have hkf : truthy st.current_key = false := by rw [hkopt]; rfl
          rw [step_key_args_nokey st line k g2 hh hm hsec hkf]
          exact Or.inr ⟨hsec, rfl, hck⟩
        | some ck =>
          by_cases hcke : ck = []
          · have hkf : truthy st.current_key = false := by rw [hkopt, hcke]; rfl
            rw [step_key_args_nokey st line k g2 hh hm hsec hkf]
            exact Or.inr ⟨hsec, rfl, hck⟩
          · rw [step_key_args_indented st line k g2 ck hh hm hsec hkopt hcke hsp]
            exact Or.inr ⟨hsec, rfl, hck⟩
      · rw [step_key_args_nokey st line k g2 hh hm hsec hkf]
        exact Or.inr ⟨hsec, rfl, hck⟩
    rw [List.foldl_cons]
    exact pending_args_final _ k (pending_args_foldl ls (processLine st line) k hP)
  · intro hsec
    have hP : k ∈ (processLine st line).raises.map Prod.fst ∨
        ((processLine st line).current_section = some Sec.raises ∧
         (processLine st line).current_key = some k ∧ k ≠ []) := by
      rcases hsp with hsp | hkf
      · cases hkopt : st.current_key with
        | none =>
          have hkf : truthy st.current_key = false := by rw [hkopt]; rfl
          rw [step_key_raises_nokey st line k g2 hh hm hsec hkf]
          exact Or.inr ⟨hsec, rfl, hck⟩
        | some ck =>
          by_cases hcke : ck = []
          · have hkf : truthy st.current_key = false := by rw [hkopt, hcke]; rfl
            rw [step_key_raises_nokey st line k g2 hh hm hsec hkf]
            exact Or.inr ⟨hsec, rfl, hck⟩
          · rw [step_key_raises_indented st line k g2 ck hh hm hsec hkopt hcke hsp]
            exact Or.inr ⟨hsec, rfl, hck⟩
      · rw [step_key_raises_nokey st line k g2 hh hm hsec hkf]
        exact Or.inr ⟨hsec, rfl, hck⟩
    rw [List.foldl_cons]
    exact pending_raises_final _ k (pending_raises_foldl ls (processLine st line) k hP)
  · intro hsec hkn
    have hkf : truthy st.current_key = false := by rw [hkn]; rfl
    rw [step_key_args_nokey st line k g2 hh hm hsec hkf]
    rw [finalCapture_args_key
      { st with current_key := some k, current_desc_lines := [pyStripList g2] }
      k hsec rfl hck]
    exact dset_dlookup_self st.args k _

/-- Witness for C10: parsing the single Args line `    x:` (colon followed
by nothing) yields an entry binding `x` to the empty string. -/
theorem c10_witness :
    (( "x" ).data ∈ (finalCapture (List.foldl processLine
        ⟨[], [], [], some Sec.args, none, []⟩
        ([( "    x:" ).data]))).args.map Prod.fst) ∧
    dlookup (finalCapture (processLine ⟨[], [], [], some Sec.args, none, []⟩
        (( "    x:" ).data))).args (( "x" ).data) = some [] :=
  ⟨(c10_theorem ⟨[], [], [], some Sec.args, none, []⟩ (( "    x:" ).data)
      (( "x" ).data) [] [] (by decide) (by decide) (Or.inl (by decide))).1 rfl,
   (c10_theorem ⟨[], [], [], some Sec.args, none, []⟩ (( "    x:" ).data)
      (( "x" ).data) [] [] (by decide) (by decide) (Or.inl (by decide))).2.2 rfl rfl⟩

/-- Claim C4: header recognition on the lowercased trimmed line is
exact-string for Args (`args:`, `arguments:`, `parameters:`) and Returns
(`returns:`, `yields:`), and prefix-based for Raises (`raises `,
`raises:`, `errors:`, `exceptions:`) and Other (`attributes:`,
`see also:`, `example:`, `examples:`, `notes:`); recognition depends only
on the lowercased line, so casing is irrelevant; and `Args: extra` is not
a header and is processed as an ordinary content line (here it even opens
an ordinary key entry `Args`). -/
theorem c4_theorem :
    (∀ l : Line,
      (headerOf l = some Sec.args ↔
        (lowerLine l = ( "args:" ).data ∨ lowerLine l = ( "arguments:" ).data ∨
          lowerLine l = ( "parameters:" ).data)) ∧
      (headerOf l = some Sec.returns ↔
        (lowerLine l = ( "returns:" ).data ∨ lowerLine l = ( "yields:" ).data)) ∧
      (headerOf l = some Sec.raises ↔
        (startsWithSeq ( "raises " ).data (lowerLine l) = true ∨
         startsWithSeq ( "raises:" ).data (lowerLine l) = true ∨
         startsWithSeq ( "errors:" ).data (lowerLine l) = true ∨
         startsWithSeq ( "exceptions:" ).data (lowerLine l) = true)) ∧
      (headerOf l = some Sec.other ↔
        (startsWithSeq ( "attributes:" ).data (lowerLine l) = true ∨
         startsWithSeq ( "see also:" ).data (lowerLine l) = true ∨
         startsWithSeq ( "example:" ).data (lowerLine l) = true ∨
         startsWithSeq ( "examples:" ).data (lowerLine l) = true ∨
         startsWithSeq ( "notes:" ).data (lowerLine l) = true))) ∧
    (∀ l1 l2 : Line, lowerLine l1 = lowerLine l2 → headerOf l1 = headerOf l2) ∧
    headerOf (pyStripList (( "Args: extra" ).data)) = none ∧
    parse_docstring (some ( "S\nArgs:\nArgs: extra" )) =
      ⟨( "S" ).data, [(( "Args" ).data, ( "extra" ).data)], [], []⟩ := by
  refine ⟨?_, ?_, rfl, rfl⟩
  · intro l
    by_cases h1 : lowerLine l = ( "args:" ).data ∨ lowerLine l = ( "arguments:" ).data ∨
        lowerLine l = ( "parameters:" ).data
    · have hval : headerOf l = some Sec.args := by
        simp only [headerOf]
        rw [if_pos h1]
      refine ⟨by simp [hval, h1], ?_, ?_, ?_⟩
      · rw [hval]
        constructor
        · intro hx; exact absurd hx (by simp)
        · intro hc
          exfalso
          rcases h1 with h | h | h <;> rcases hc with h' | h' <;>
            (rw [h] at h'; revert h'; decide)
      · rw [hval]
        constructor
        · intro hx; exact absurd hx (by simp)
        · intro hc
          exfalso
          rcases h1 with h | h | h <;> rcases hc with h' | h' | h' | h' <;>
            (rw [h] at h'; revert h'; decide)
      · rw [hval]
        constructor
        · intro hx; exact absurd hx (by simp)
        · intro hc
          exfalso
          rcases h1 with h | h | h <;> rcases hc with h' | h' | h' | h' | h' <;>
            (rw [h] at h'; revert h'; decide)
    · by_cases h2 : lowerLine l = ( "returns:" ).data ∨ lowerLine l = ( "yields:" ).data
      · have hval : headerOf l = some Sec.returns := by
          simp only [headerOf]
          rw [if_neg h1, if_pos h2]
        refine ⟨?_, by simp [hval, h2], ?_, ?_⟩
        · rw [hval]
          constructor
          · intro hx; exact absurd hx (by simp)
          · intro hc; exact absurd hc h1
        · rw [hval]
          constructor
          · intro hx; exact absurd hx (by simp)
          · intro hc
            exfalso
            rcases h2 with h | h <;> rcases hc with h' | h' | h' | h' <;>
              (rw [h] at h'; revert h'; decide)
        · rw [hval]
          constructor
          · intro hx; exact absurd hx (by simp)
          · intro hc
            exfalso
            rcases h2 with h | h <;> rcases hc with h' | h' | h' | h' | h' <;>
              (rw [h] at h'; revert h'; decide)
      · by_cases h3 : startsWithSeq ( "raises " ).data (lowerLine l) = true ∨
            startsWithSeq ( "raises:" ).data (lowerLine l) = true ∨
            startsWithSeq ( "errors:" ).data (lowerLine l) = true ∨
            startsWithSeq ( "exceptions:" ).data (lowerLine l) = true
        · have hval : headerOf l = some Sec.raises := by
            simp only [headerOf]
            rw [if_neg h1, if_neg h2, if_pos h3]
          refine ⟨?_, ?_, by simp [hval, h3], ?_⟩
          · rw [hval]
            constructor
            · intro hx; exact absurd hx (by simp)
            · intro hc; exact absurd hc h1
          · rw [hval]
            constructor
            · intro hx; exact absurd hx (by simp)
            · intro hc; exact absurd hc h2
          · rw [hval]
            constructor
            · intro hx; exact absurd hx (by simp)
            · intro hc
              exfalso
              rcases h3 with hp | hp | hp | hp <;> rcases hc with hq | hq | hq | hq | hq <;>
                (rcases startsWithSeq_comparable hp hq with hcmp | hcmp <;>
                  (revert hcmp; decide))
        · by_cases h4 : startsWithSeq ( "attributes:" ).data (lowerLine l) = true ∨
              startsWithSeq ( "see also:" ).data (lowerLine l) = true ∨
              startsWithSeq ( "example:" ).data (lowerLine l) = true ∨
              startsWithSeq ( "examples:" ).data (lowerLine l) = true ∨
              startsWithSeq ( "notes:" ).data (lowerLine l) = true
          · have hval : headerOf l = some Sec.other := by
              simp only [headerOf]
              rw [if_neg h1, if_neg h2, if_neg h3, if_pos h4]
            refine ⟨?_, ?_, ?_, by simp [hval, h4]⟩
            · rw [hval]
              constructor
              · intro hx; exact absurd hx (by simp)
              · intro hc; exact absurd hc h1
            · rw [hval]
              constructor
              · intro hx; exact absurd hx (by simp)
              · intro hc; exact absurd hc h2
            · rw [hval]
              constructor
              · intro hx; exact absurd hx (by simp)
              · intro hc; exact absurd hc h3
          · have hval : headerOf l = none := by
              simp only [headerOf]
              rw [if_neg h1, if_neg h2, if_neg h3, if_neg h4]
            refine ⟨?_, ?_, ?_, ?_⟩ <;> rw [hval] <;> constructor
            · intro hx; exact absurd hx (by simp)
            · intro hc; exact absurd hc h1
            · intro hx; exact absurd hx (by simp)
            · intro hc; exact absurd hc h2
            · intro hx; exact absurd hx (by simp)
            · intro hc; exact absurd hc h3
            · intro hx; exact absurd hx (by simp)
            · intro hc; exact absurd hc h4
  · intro l1 l2 h
    simp only [headerOf]
    rw [h]

/-- Witness for C4: header recognition is case-insensitive — `ArGs:` and
`args:` lowercase to the same line, so they classify identically. -/
theorem c4_witness : headerOf (( "ArGs:" ).data) = headerOf (( "args:" ).data) :=
  c4_theorem.2.1 (( "ArGs:" ).data) (( "args:" ).data) (by decide)

end DocstringParser
